import Mathlib

/-!
# Verification of the A3ann annotation pipeline (`annotate_context.py`)

Shallow embedding of the three core functions of the pipeline:

* `annotate_genomic_context` — coerces positions to integers, queries an
  external sequence-lookup capability, zips the results back onto the rows,
  derives `seq`/`seq_len`, and optionally filters rows with truncated context;
* `annotate_a3a_context` — uppercase-normalises `seq`/`Reference`/`Allele`
  and flags rows matching the A3A strand-aware trinucleotide patterns;
* `remove_duplicate_mutations` — splits the combined record set into a
  deduplicated "kept" table and a duplicates-audit table, and prints a
  per-origin-file summary.

DataFrames are modelled as lists of records; pandas column operations become
per-row functions mapped over the list; operations that can raise become
`Except`-valued functions.
-/

namespace A3ann

/-! ## Strings: Python `str.upper`

Python's `str.upper` (as used on nucleotide codes) uppercases each character.
We model it as a per-character map over the string's character list, using
`Char.toUpper` (ASCII letters, which is the alphabet of nucleotide data). -/

/-- Model of Python `str.upper`: uppercase every character. -/
def strUpper (s : String) : String := ⟨s.data.map Char.toUpper⟩

/-! ## Raw input values

The `Reference Position` column arrives from CSV parsing, so a cell may hold
an integer or an arbitrary string; `.astype(int)` (pandas) converts each cell
to an integer and raises on cells that do not parse as an integer. -/

/-- A raw cell of the position column: already-numeric, or a string. -/
inductive RawPos where
  | intVal (n : Int)
  | strVal (s : String)
  deriving Repr, DecidableEq

/-- Accumulate the value of a run of decimal digits; fail at the first
non-digit character. -/
def digitsValGo (acc : Nat) : List Char → Option Nat
  | [] => some acc
  | c :: rest =>
    if c.isDigit then digitsValGo (acc * 10 + (c.toNat - 48)) rest else none

/-- Model of Python `int(str)` on a decimal literal: an optional sign
followed by a nonempty run of digits; anything else fails. -/
def parsePyInt (s : String) : Option Int :=
  match s.data with
  | [] => none
  | '-' :: rest =>
    if rest.isEmpty then none
    else (digitsValGo 0 rest).map (fun n => -(n : Int))
  | '+' :: rest =>
    if rest.isEmpty then none
    else (digitsValGo 0 rest).map (fun n => (n : Int))
  | l => (digitsValGo 0 l).map (fun n => (n : Int))

/-- Model of the per-cell conversion performed by `.astype(int)`:
an integer cell is returned unchanged (whatever its sign); a string cell is
parsed as an optionally-signed decimal integer, and fails otherwise. -/
def rawToInt : RawPos → Option Int
  | .intVal n => some n
  | .strVal s => parsePyInt s

/-! ## Data model -/

/-- An input variant-call row, with the columns `annotate_genomic_context`
reads: `Mapping` (chromosome), `Reference Position`, `Reference`, `Allele`. -/
structure VariantRow where
  mapping : String
  refPosition : RawPos
  reference : String
  allele : String
  deriving Repr, DecidableEq

/-- One element of the result list of `ba.pullGenomicContext`, as consumed by
the adapter: the four values assigned into `ctx_L`, `ctx_C`, `ctx_R`,
`ctx_chr`. -/
structure CtxResult where
  left : String
  center : String
  right : String
  chrom : String
  deriving Repr, DecidableEq

/-- A row of the context-annotated DataFrame produced by
`annotate_genomic_context`: the input columns (position now an integer) plus
`ctx_L`, `ctx_C`, `ctx_R`, `ctx_chr`, `seq`, `seq_len`. -/
structure CtxRow where
  mapping : String
  refPosition : Int
  reference : String
  allele : String
  ctx_L : String
  ctx_C : String
  ctx_R : String
  ctx_chr : String
  seq : String
  seq_len : Nat
  deriving Repr, DecidableEq

/-- Errors with which `annotate_genomic_context` can abort a batch. -/
inductive AnnotateError where
  /-- Raised by `.astype(int)`: some position cell does not parse as an integer. -/
  | malformedPosition (raw : RawPos)
  /-- Raised by `pd.DataFrame(result, index=df.index)`: the lookup returned a
  result list whose length differs from the number of rows. -/
  | lookupLengthMismatch (rows results : Nat)
  /-- The object passed to the function is not a variant-call DataFrame
  (Python would fail on the first attribute access). Only used by the
  heap-level call model. -/
  | notAFrame
  deriving Repr, DecidableEq

/-! ## `annotate_genomic_context` -/

/-- Model of `df[pos_col] = df[pos_col].astype(int)`: convert every position cell to
an integer, failing the whole batch on the first unconvertible cell. -/
def coercePositions : List VariantRow → Except AnnotateError (List Int)
  | [] => .ok []
  | r :: rest =>
    match rawToInt r.refPosition with
    | none => .error (.malformedPosition r.refPosition)
    | some n =>
      match coercePositions rest with
      | .error e => .error e
      | .ok ns => .ok (n :: ns)

/-- Model of `list_of_positions = df[[chrom_col, pos_col]].values.tolist()`:
the (chromosome, coerced position) pairs, in row order. -/
def positionPairs (rows : List VariantRow) (ps : List Int) : List (String × Int) :=
  (rows.zip ps).map (fun rp => (rp.1.mapping, rp.2))

/-- Build one enriched row: assign the four context pieces into the row and
derive `seq = ctx_L + ctx_C + ctx_R` and `seq_len = len(seq)`. -/
def mkCtxRow (r : VariantRow) (p : Int) (c : CtxResult) : CtxRow :=
  { mapping := r.mapping
    refPosition := p
    reference := r.reference
    allele := r.allele
    ctx_L := c.left
    ctx_C := c.center
    ctx_R := c.right
    ctx_chr := c.chrom
    seq := c.left ++ c.center ++ c.right
    seq_len := (c.left ++ c.center ++ c.right).length }

/-- Model of `annotate_genomic_context(df, ..., context_flank, require_full_context)`.

The external capability `ba.pullGenomicContext` is passed in as the function
argument `lookup` (it is an external collaborator; only its call site is part
of this program).  The assignment
`df[['ctx_L','ctx_C','ctx_R','ctx_chr']] = pd.DataFrame(result, index=df.index)`
aligns the i-th result with the i-th row and raises when the lengths differ;
the final `df[df['seq_len'] == expected_len]` filter runs only when
`require_full_context` is set. -/
def annotate_genomic_context (rows : List VariantRow)
    (lookup : List (String × Int) → List CtxResult)
    (context_flank : Nat) (require_full_context : Bool) :
    Except AnnotateError (List CtxRow) :=
  match coercePositions rows with
  | .error e => .error e
  | .ok ps =>
    let result := lookup (positionPairs rows ps)
    if result.length = rows.length then
      let enriched := List.zipWith (fun rp c => mkCtxRow rp.1 rp.2 c) (rows.zip ps) result
      if require_full_context then
        .ok (enriched.filter (fun r => r.seq_len == context_flank * 2 + 1))
      else
        .ok enriched
    else
      .error (.lookupLengthMismatch rows.length result.length)

/-! ## `annotate_a3a_context` -/

/-- Source constant holding the top-strand trinucleotides TCA, TCT, TCG. -/
def a3a_context_trinucleotides_top : List String := ["TCA", "TCT", "TCG"]

/-- Source constant holding the bottom-strand trinucleotides TGA, AGA, CGA. -/
def a3a_context_trinucleotides_bottom : List String := ["TGA", "AGA", "CGA"]

/-- A context-annotated row after `annotate_a3a_context`: the same columns
with `seq`, `Reference`, `Allele` overwritten by their uppercase forms, plus
the `A3A_context` flag. -/
structure A3ARow where
  mapping : String
  refPosition : Int
  reference : String
  allele : String
  ctx_L : String
  ctx_C : String
  ctx_R : String
  ctx_chr : String
  seq : String
  seq_len : Nat
  A3A_context : Bool
  deriving Repr, DecidableEq

/-- The per-row effect of `annotate_a3a_context`: initialise `A3A_context`
to `False`; overwrite `seq`, `Reference`, `Allele` with their uppercase
forms; set the flag where `cond1 | cond2` holds. -/
def annotate_a3a_row (r : CtxRow) : A3ARow :=
  let seq := strUpper r.seq
  let reference := strUpper r.reference
  let allele := strUpper r.allele
  let cond1 := reference == "C" && (["T", "G"].contains allele)
      && (a3a_context_trinucleotides_top.contains seq)
  let cond2 := reference == "G" && (["A", "T"].contains allele)
      && (a3a_context_trinucleotides_bottom.contains seq)
  { mapping := r.mapping
    refPosition := r.refPosition
    reference := reference
    allele := allele
    ctx_L := r.ctx_L
    ctx_C := r.ctx_C
    ctx_R := r.ctx_R
    ctx_chr := r.ctx_chr
    seq := seq
    seq_len := r.seq_len
    A3A_context := cond1 || cond2 }

/-- Model of `annotate_a3a_context(annotated_df)`: the column-wise pandas operations
act independently on each row. -/
def annotate_a3a_context (rows : List CtxRow) : List A3ARow :=
  rows.map annotate_a3a_row

/-! ## `remove_duplicate_mutations` -/

/-- A row of the combined master DataFrame fed to
`remove_duplicate_mutations`: an annotated, classified row plus the
`origin_file` provenance column added by the driver. -/
structure MasterRow where
  mapping : String
  refPosition : Int
  reference : String
  allele : String
  ctx_L : String
  ctx_C : String
  ctx_R : String
  ctx_chr : String
  seq : String
  seq_len : Nat
  A3A_context : Bool
  origin_file : String
  deriving Repr, DecidableEq

/-- The dedup key:
`subset_cols = ["Mapping","Reference Position","Reference","Allele","seq","A3A_context"]`.
`origin_file` (and the remaining columns) are not part of it. -/
def dedupKey (r : MasterRow) : String × Int × String × String × String × Bool :=
  (r.mapping, r.refPosition, r.reference, r.allele, r.seq, r.A3A_context)

/-- Model of `df[df.duplicated(subset=subset_cols, keep=False)]`: every row whose key
group (within the whole frame) has size at least 2. -/
def duplicateRows (df : List MasterRow) : List MasterRow :=
  df.filter (fun r => 2 ≤ (df.filter (fun s => dedupKey s == dedupKey r)).length)

/-- Worker for `drop_duplicates`: scan the rows in order, keeping a row iff
its key has not been seen before. -/
def dropDupGo (seen : List (String × Int × String × String × String × Bool)) :
    List MasterRow → List MasterRow
  | [] => []
  | r :: rest =>
    if dedupKey r ∈ seen then dropDupGo seen rest
    else r :: dropDupGo (dedupKey r :: seen) rest

/-- Model of `df.drop_duplicates(subset=subset_cols)`: keep the first occurrence of
each key, preserving row order. -/
def drop_duplicates (df : List MasterRow) : List MasterRow :=
  dropDupGo [] df

/-- Model of `remove_duplicate_mutations(df)`: returns the deduplicated frame and the
duplicates-audit frame (the per-file report it prints is modelled separately
by `fileSummary`). -/
def remove_duplicate_mutations (df : List MasterRow) :
    List MasterRow × List MasterRow :=
  (drop_duplicates df, duplicateRows df)

/-- Model of `df['origin_file'].unique()`: the distinct values of the column, in
order of first appearance. -/
def uniqueGo (seen : List String) : List String → List String
  | [] => []
  | s :: rest =>
    if s ∈ seen then uniqueGo seen rest
    else s :: uniqueGo (s :: seen) rest

/-- The origin files the summary loop iterates over. -/
def uniqueOrigins (df : List MasterRow) : List String :=
  uniqueGo [] (df.map (·.origin_file))

/-- One printed summary line: per origin file, the kept-row count, the
A3A-context count, and the printed fraction `count_a3a/count`. -/
structure SummaryLine where
  origin_file : String
  count : Nat
  countA3A : Nat
  fraction : Rat
  deriving Repr, DecidableEq

/-- Error raised while printing the summary. -/
inductive SummaryError where
  /-- Python `ZeroDivisionError` from `count_a3a/count` with `count == 0`. -/
  | divisionByZero (origin_file : String)
  deriving Repr, DecidableEq

/-- One iteration of the summary loop, for origin file `f`:
`count = df[df['origin_file'] == f].shape[0]`,
`count_a3a = df[(df['origin_file'] == f) & (df['A3A_context'] == True)].shape[0]`,
then `count_a3a/count` is printed (raising on a zero denominator). -/
def summaryLine (df : List MasterRow) (f : String) :
    Except SummaryError SummaryLine :=
  let count := (df.filter (fun r => r.origin_file == f)).length
  let countA3A := (df.filter (fun r => r.origin_file == f && r.A3A_context)).length
  if count = 0 then .error (.divisionByZero f)
  else .ok { origin_file := f, count := count, countA3A := countA3A,
             fraction := (countA3A : Rat) / (count : Rat) }

/-- The body of the report loop, iterating over a list of origin files:
stops with the exception raised by the first failing iteration. -/
def summaryLoop (df : List MasterRow) : List String → Except SummaryError (List SummaryLine)
  | [] => .ok []
  | f :: rest =>
    match summaryLine df f with
    | .error e => .error e
    | .ok line =>
      match summaryLoop df rest with
      | .error e => .error e
      | .ok lines => .ok (line :: lines)

/-- The whole per-file report printed by `remove_duplicate_mutations`:
`for origin_file in df['origin_file'].unique(): ...` over the deduplicated
frame. -/
def fileSummary (df : List MasterRow) : Except SummaryError (List SummaryLine) :=
  summaryLoop df (uniqueOrigins df)

/-- Whether an `Except` computation finished without raising. -/
def exceptIsOk {ε α : Type} : Except ε α → Bool
  | .ok _ => true
  | .error _ => false

/-! ## Heap-level model of the call `annotate_genomic_context(df, ...)`

`annotate_genomic_context` receives a reference to the caller's DataFrame
object and immediately rebinds its local name with `df = df.copy()`; every
later in-place statement of the body writes through that local name, i.e.
into the copy.  To state that the caller's object is untouched we model the
Python heap as a list of frame objects addressed by their index: the call
reads the frame at the given address, allocates the copy at a fresh address,
and stores the function's result there. -/

/-- A heap object: a raw variant-call frame, or a context-annotated frame. -/
inductive FrameVal where
  | raw (rows : List VariantRow)
  | ctx (rows : List CtxRow)
  deriving Repr, DecidableEq

/-- The call at heap level.  Returns the heap after the call, and the address
of the result frame (or the exception that aborted the call).  The statement
`df = df.copy()` allocates the copy at the fresh address `heap.length`; all
the body's writes are collapsed into the single store of the function's
result at that address. -/
def annotate_genomic_context_call (heap : List FrameVal) (a : Nat)
    (lookup : List (String × Int) → List CtxResult) (k : Nat) (rfc : Bool) :
    List FrameVal × Except AnnotateError Nat :=
  match heap[a]? with
  | some (.raw rows) =>
    let b := heap.length
    let heap1 := heap ++ [FrameVal.raw rows]
    match annotate_genomic_context rows lookup k rfc with
    | .ok out => (heap1.set b (.ctx out), .ok b)
    | .error e => (heap1, .error e)
  | _ => (heap, .error .notAFrame)

/-! ## Concrete fixtures for the closed witness and counterexample theorems -/

/-- A one-row batch whose position cell holds the negative integer -7. -/
def negativeBatch : List VariantRow :=
  [{ mapping := "chr1", refPosition := .intVal (-7), reference := "C", allele := "T" }]

/-- A one-row batch whose position cell holds a non-numeric string. -/
def badBatch : List VariantRow :=
  [{ mapping := "chr1", refPosition := .strVal "oops", reference := "C", allele := "T" }]

/-- A lookup stub returning the full trinucleotide context TCA for every
requested position. -/
def fullLookup : List (String × Int) → List CtxResult :=
  fun ps => ps.map (fun p => { left := "T", center := "C", right := "A", chrom := p.1 })

/-- A lookup stub that returns no results at all. -/
def emptyLookup : List (String × Int) → List CtxResult := fun _ => []

/-- The enriched row `annotate_genomic_context` produces for `negativeBatch`
under `fullLookup`. -/
def ctxRowNeg : CtxRow :=
  { mapping := "chr1", refPosition := -7, reference := "C", allele := "T",
    ctx_L := "T", ctx_C := "C", ctx_R := "A", ctx_chr := "chr1",
    seq := "TCA", seq_len := 3 }

/-- A classified master row in A3A context, from origin file fileA.csv. -/
def dupRowA : MasterRow :=
  { mapping := "chr1", refPosition := 100, reference := "C", allele := "T",
    ctx_L := "T", ctx_C := "C", ctx_R := "A", ctx_chr := "chr1",
    seq := "TCA", seq_len := 3, A3A_context := true, origin_file := "fileA.csv" }

/-- The same genomic record as `dupRowA`, observed in origin file fileB.csv. -/
def dupRowB : MasterRow := { dupRowA with origin_file := "fileB.csv" }

/-! ## Lemmas about uppercase normalisation -/

/-- Uppercasing a character twice is the same as uppercasing it once. -/
theorem char_toUpper_toUpper (c : Char) : c.toUpper.toUpper = c.toUpper := by
  by_cases h : c.toNat ≥ 97 ∧ c.toNat ≤ 122
  · have hc : c.toUpper = Char.ofNat (c.toNat - 32) := by
      show (if c.toNat ≥ 97 ∧ c.toNat ≤ 122 then Char.ofNat (c.toNat - 32) else c) = _
      rw [if_pos h]
    rw [hc]
    obtain ⟨h1, h2⟩ := h
    generalize c.toNat = m at h1 h2 ⊢
    interval_cases m <;> decide
  · have hc : c.toUpper = c := by
      show (if c.toNat ≥ 97 ∧ c.toNat ≤ 122 then Char.ofNat (c.toNat - 32) else c) = _
      rw [if_neg h]
    simp only [hc]

/-- Uppercasing a string is idempotent. -/
theorem strUpper_idem (s : String) : strUpper (strUpper s) = strUpper s := by
  show (⟨(s.data.map Char.toUpper).map Char.toUpper⟩ : String) = ⟨s.data.map Char.toUpper⟩
  rw [List.map_map]
  congr 1
  apply List.map_congr_left
  intro c _
  exact char_toUpper_toUpper c

/-! ## Lemmas about position coercion -/

/-- Successful coercion yields one integer per row. -/
theorem coercePositions_length {rows : List VariantRow} {ps : List Int}
    (h : coercePositions rows = .ok ps) : ps.length = rows.length := by
  induction rows generalizing ps with
  | nil =>
    simp only [coercePositions] at h
    injection h with h
    subst h
    rfl
  | cons r rest ih =>
    simp only [coercePositions] at h
    cases hr : rawToInt r.refPosition with
    | none => rw [hr] at h; exact absurd h (by simp)
    | some n =>
      rw [hr] at h
      cases hc : coercePositions rest with
      | error e => rw [hc] at h; exact absurd h (by simp)
      | ok ns =>
        rw [hc] at h
        injection h with h
        subst h
        simp [ih hc]

/-- If some row's position cell does not parse, coercion fails the batch with
a malformed-position error (for the first such cell). -/
theorem coercePositions_error_of_bad {rows : List VariantRow} {r : VariantRow}
    (hr : r ∈ rows) (hb : rawToInt r.refPosition = none) :
    ∃ raw, coercePositions rows = .error (.malformedPosition raw) ∧ rawToInt raw = none := by
  induction rows with
  | nil => simp at hr
  | cons x rest ih =>
    simp only [coercePositions]
    cases hx : rawToInt x.refPosition with
    | none => exact ⟨x.refPosition, rfl, hx⟩
    | some n =>
      rcases List.mem_cons.mp hr with h | h
      · subst h; rw [hx] at hb; exact absurd hb (by simp)
      · obtain ⟨raw, hraw, hnone⟩ := ih h
        exact ⟨raw, by rw [hraw], hnone⟩

/-- If every position cell parses, coercion succeeds. -/
theorem coercePositions_ok_of_all {rows : List VariantRow}
    (h : ∀ r ∈ rows, (rawToInt r.refPosition).isSome) :
    ∃ ps, coercePositions rows = .ok ps := by
  induction rows with
  | nil => exact ⟨[], rfl⟩
  | cons x rest ih =>
    have hx := h x (List.mem_cons_self x rest)
    cases hrx : rawToInt x.refPosition with
    | none => rw [hrx] at hx; exact absurd hx (by simp)
    | some n =>
      obtain ⟨ps, hps⟩ := ih (fun r hr => h r (List.mem_cons_of_mem x hr))
      exact ⟨n :: ps, by simp only [coercePositions]; rw [hrx, hps]⟩

/-- Every element of a `zipWith` is the image of a pair of elements. -/
theorem mem_zipWith_exists {α β γ : Type} {f : α → β → γ} {as : List α} {bs : List β} {c : γ}
    (h : c ∈ List.zipWith f as bs) : ∃ a b, c = f a b := by
  induction as generalizing bs with
  | nil => simp at h
  | cons a as ih =>
    cases bs with
    | nil => simp at h
    | cons b bs =>
      rw [List.zipWith_cons_cons, List.mem_cons] at h
      rcases h with h | h
      · exact ⟨a, b, h⟩
      · exact ih h

/-! ## Lemmas about the deduplication scan -/

/-- The deduplication scan returns a sublist of its input. -/
theorem dropDupGo_sublist (seen : List (String × Int × String × String × String × Bool))
    (l : List MasterRow) : (dropDupGo seen l).Sublist l := by
  induction l generalizing seen with
  | nil => simp [dropDupGo]
  | cons r rest ih =>
    simp only [dropDupGo]
    split
    · exact (ih seen).cons r
    · exact (ih (dedupKey r :: seen)).cons₂ r

/-- No key retained by the scan was already in the seen set. -/
theorem dropDupGo_not_seen {seen : List (String × Int × String × String × String × Bool)}
    {l : List MasterRow} : ∀ s ∈ dropDupGo seen l, dedupKey s ∉ seen := by
  induction l generalizing seen with
  | nil => simp [dropDupGo]
  | cons r rest ih =>
    simp only [dropDupGo]
    split
    · exact ih
    · next hns =>
      intro s hs
      rcases List.mem_cons.mp hs with h | h
      · subst h; exact hns
      · intro hcon
        exact ih s h (List.mem_cons_of_mem _ hcon)

/-- The rows kept by the scan have pairwise distinct keys. -/
theorem dropDupGo_pairwise (seen : List (String × Int × String × String × String × Bool))
    (l : List MasterRow) :
    (dropDupGo seen l).Pairwise (fun a b => dedupKey a ≠ dedupKey b) := by
  induction l generalizing seen with
  | nil => simp [dropDupGo]
  | cons r rest ih =>
    simp only [dropDupGo]
    split
    · exact ih seen
    · refine List.Pairwise.cons ?_ (ih (dedupKey r :: seen))
      intro b hb hcon
      exact dropDupGo_not_seen b hb (by rw [← hcon]; exact List.mem_cons_self _ _)

/-- Every input key is either already seen or represented in the output. -/
theorem dropDupGo_covers (seen : List (String × Int × String × String × String × Bool))
    {l : List MasterRow} :
    ∀ r ∈ l, dedupKey r ∈ seen ∨ ∃ s ∈ dropDupGo seen l, dedupKey s = dedupKey r := by
  induction l generalizing seen with
  | nil => simp
  | cons x rest ih =>
    intro r hr
    simp only [dropDupGo]
    rcases List.mem_cons.mp hr with h | h
    · subst h
      split
      · next hin => exact .inl hin
      · exact .inr ⟨r, List.mem_cons_self _ _, rfl⟩
    · split
      · exact ih seen r h
      · next hnin =>
        rcases ih (dedupKey x :: seen) r h with hs | ⟨s, hs, hks⟩
        · rcases List.mem_cons.mp hs with hk | hk
          · exact .inr ⟨x, List.mem_cons_self _ _, hk.symm⟩
          · exact .inl hk
        · exact .inr ⟨s, List.mem_cons_of_mem _ hs, hks⟩

/-- Every row kept by the scan is the first row of the input with its key. -/
theorem dropDupGo_find {seen : List (String × Int × String × String × String × Bool)}
    {l : List MasterRow} :
    ∀ s ∈ dropDupGo seen l, l.find? (fun r => dedupKey r == dedupKey s) = some s := by
  induction l generalizing seen with
  | nil => simp [dropDupGo]
  | cons x rest ih =>
    intro s hs
    simp only [dropDupGo] at hs
    split at hs
    · next hin =>
      have hneq : dedupKey x ≠ dedupKey s := by
        intro hcon
        exact dropDupGo_not_seen s hs (hcon ▸ hin)
      rw [List.find?_cons_of_neg _ (by simpa using hneq)]
      exact ih s hs
    · next hnin =>
      rcases List.mem_cons.mp hs with h | h
      · subst h
        exact List.find?_cons_of_pos _ (by simp)
      · have hkey := dropDupGo_not_seen s h
        have hneq : dedupKey x ≠ dedupKey s := by
          intro hcon
          exact hkey (hcon ▸ List.mem_cons_self _ _)
        rw [List.find?_cons_of_neg _ (by simpa using hneq)]
        exact ih s h

/-- On a list whose keys are already pairwise distinct and disjoint from the
seen set, the scan keeps every row. -/
theorem dropDupGo_of_pairwise {l : List MasterRow}
    (hp : l.Pairwise (fun a b => dedupKey a ≠ dedupKey b))
    (seen : List (String × Int × String × String × String × Bool))
    (hseen : ∀ s ∈ l, dedupKey s ∉ seen) : dropDupGo seen l = l := by
  induction l generalizing seen with
  | nil => rfl
  | cons x rest ih =>
    simp only [dropDupGo]
    rw [if_neg (hseen x (List.mem_cons_self _ _))]
    congr 1
    refine ih (List.Pairwise.sublist (List.sublist_cons_self x rest) hp) _ ?_
    intro s hs
    intro hcon
    rcases List.mem_cons.mp hcon with h | h
    · exact (List.pairwise_cons.mp hp).1 s hs h.symm
    · exact hseen s (List.mem_cons_of_mem _ hs) h

/-- In a list with pairwise-distinct keys, each row's key group is a
singleton. -/
theorem filter_key_length_of_pairwise {l : List MasterRow}
    (hp : l.Pairwise (fun a b => dedupKey a ≠ dedupKey b)) :
    ∀ r ∈ l, (l.filter (fun s => dedupKey s == dedupKey r)).length = 1 := by
  induction l with
  | nil => simp
  | cons x rest ih =>
    intro r hr
    have hx := (List.pairwise_cons.mp hp).1
    have hrest := (List.pairwise_cons.mp hp).2
    rcases List.mem_cons.mp hr with h | h
    · subst h
      rw [List.filter_cons_of_pos (by simp)]
      have : rest.filter (fun s => dedupKey s == dedupKey r) = [] := by
        rw [List.filter_eq_nil_iff]
        intro s hs
        simpa using fun hcon => (hx s hs) hcon.symm
      simp [this]
    · rw [List.filter_cons_of_neg (by simpa using hx r h)]
      exact ih hrest r h

/-- A list with pairwise-distinct keys has no duplicate rows to flag. -/
theorem duplicateRows_of_pairwise {l : List MasterRow}
    (hp : l.Pairwise (fun a b => dedupKey a ≠ dedupKey b)) : duplicateRows l = [] := by
  rw [duplicateRows, List.filter_eq_nil_iff]
  intro r hr
  simp [filter_key_length_of_pairwise hp r hr]

/-! ## Lemmas about the per-file summary -/

/-- Membership in the order-preserving unique scan. -/
theorem mem_uniqueGo {x : String} {seen l : List String} :
    x ∈ uniqueGo seen l ↔ (x ∈ l ∧ x ∉ seen) := by
  induction l generalizing seen with
  | nil => simp [uniqueGo]
  | cons s rest ih =>
    simp only [uniqueGo]
    split
    · next hin =>
      rw [ih, List.mem_cons]
      constructor
      · rintro ⟨h1, h2⟩
        exact ⟨.inr h1, h2⟩
      · rintro ⟨h1, h2⟩
        rcases h1 with h | h
        · subst h; exact absurd hin h2
        · exact ⟨h, h2⟩
    · next hnin =>
      rw [List.mem_cons, List.mem_cons, ih, List.mem_cons]
      by_cases hx : x = s
      · subst hx; simp [hnin]
      · simp [hx]

/-- The summary loop succeeds on any list of origin files that all have at
least one row in the frame, reporting one line per file in order. -/
theorem summaryLoop_ok (df : List MasterRow) (l : List String)
    (h : ∀ f ∈ l, 1 ≤ (df.filter (fun r => r.origin_file == f)).length) :
    ∃ lines, summaryLoop df l = .ok lines
      ∧ lines.map (fun s => s.origin_file) = l
      ∧ ∀ s ∈ lines, 1 ≤ s.count := by
  induction l with
  | nil => exact ⟨[], rfl, rfl, by simp⟩
  | cons f rest ih =>
    obtain ⟨lines, hl, hm, hc⟩ := ih (fun g hg => h g (List.mem_cons_of_mem _ hg))
    have hf := h f (List.mem_cons_self _ _)
    have hcount : ((df.filter (fun r => r.origin_file == f)).length) ≠ 0 := by omega
    cases hsl : summaryLine df f with
    | error e =>
      simp only [summaryLine] at hsl
      rw [if_neg hcount] at hsl
      exact absurd hsl (by simp)
    | ok line =>
      have hline : line.origin_file = f ∧ 1 ≤ line.count := by
        simp only [summaryLine] at hsl
        rw [if_neg hcount] at hsl
        injection hsl with hsl
        subst hsl
        exact ⟨rfl, hf⟩
      refine ⟨line :: lines, ?_, ?_, ?_⟩
      · simp only [summaryLoop]
        rw [hsl, hl]
      · simp [hm, hline.1]
      · intro s hs
        rcases List.mem_cons.mp hs with hh | hh
        · subst hh; exact hline.2
        · exact hc s hh

/-! ## Claims -/

/-- C1: after uppercase normalisation, the `A3A_context` flag is true iff
the record matches the forward-strand rule (reference C, allele T or G,
sequence TCA, TCT or TCG) or the reverse-strand rule (reference G, allele A
or T, sequence TGA, AGA or CGA); in every other case it is false. -/
theorem a3a_context_flag_iff (r : CtxRow) :
    (annotate_a3a_row r).A3A_context = true ↔
      ((strUpper r.reference = "C" ∧ (strUpper r.allele = "T" ∨ strUpper r.allele = "G")
          ∧ (strUpper r.seq = "TCA" ∨ strUpper r.seq = "TCT" ∨ strUpper r.seq = "TCG"))
        ∨ (strUpper r.reference = "G" ∧ (strUpper r.allele = "A" ∨ strUpper r.allele = "T")
          ∧ (strUpper r.seq = "TGA" ∨ strUpper r.seq = "AGA" ∨ strUpper r.seq = "CGA"))) := by
  simp [annotate_a3a_row, a3a_context_trinucleotides_top, a3a_context_trinucleotides_bottom,
    List.contains, Bool.or_eq_true, Bool.and_eq_true, beq_iff_eq]
  tauto

/-- C2: the deduplicator partitions by the six-field key.  The
duplicates-flagged output holds exactly the rows whose key group in the whole
frame has size at least two (all members); the kept output is a sublist of
the input with pairwise-distinct keys that covers every key of the input,
and each kept row is the first row of the input bearing its key; the
`origin_file` column does not affect the key. -/
theorem remove_duplicates_partition (df : List MasterRow) :
    (∀ r : MasterRow, r ∈ (remove_duplicate_mutations df).2 ↔
        (r ∈ df ∧ 2 ≤ (df.filter (fun s => dedupKey s == dedupKey r)).length))
    ∧ ((remove_duplicate_mutations df).1).Sublist df
    ∧ ((remove_duplicate_mutations df).1).Pairwise (fun a b => dedupKey a ≠ dedupKey b)
    ∧ (∀ r ∈ df, ∃ s ∈ (remove_duplicate_mutations df).1, dedupKey s = dedupKey r)
    ∧ (∀ s ∈ (remove_duplicate_mutations df).1,
        df.find? (fun r => dedupKey r == dedupKey s) = some s)
    ∧ (∀ (r : MasterRow) (o : String), dedupKey { r with origin_file := o } = dedupKey r) := by
  refine ⟨?_, ?_, ?_, ?_, ?_, ?_⟩
  · intro r
    simp [remove_duplicate_mutations, duplicateRows, List.mem_filter]
  · exact dropDupGo_sublist [] df
  · exact dropDupGo_pairwise [] df
  · intro r hr
    rcases dropDupGo_covers [] r hr with h | h
    · simp at h
    · exact h
  · exact fun s hs => dropDupGo_find s hs
  · intro r o
    rfl

/-- Witness for C2: in a two-row frame whose rows share the key, the second
row is flagged as a duplicate. -/
theorem remove_duplicates_partition_witness :
    dupRowB ∈ (remove_duplicate_mutations [dupRowA, dupRowB]).2 :=
  ((remove_duplicates_partition [dupRowA, dupRowB]).1 dupRowB).mpr ⟨by decide, by decide⟩

/-- C3 counterexample: a batch whose single row carries the negative
position -7 is not rejected — `annotate_genomic_context` coerces it and
returns an enriched row, contradicting the claim that a negative position
fails the batch with an error. -/
theorem annotate_negative_position_accepted :
    ((-7 : Int) < 0)
    ∧ negativeBatch = [{ mapping := "chr1", refPosition := .intVal (-7),
                         reference := "C", allele := "T" }]
    ∧ annotate_genomic_context negativeBatch fullLookup 1 true = .ok [ctxRowNeg] :=
  ⟨by decide, rfl, rfl⟩

/-- C3 (amended): the batch fails with a malformed-position error exactly
when some position cell is non-numeric; when every cell parses as an integer
the malformed-position error is never raised — in particular a negative
integer position is coerced unchanged rather than rejected. -/
theorem annotate_position_coercion (rows : List VariantRow)
    (lookup : List (String × Int) → List CtxResult) (k : Nat) (rfc : Bool) :
    ((∃ r ∈ rows, rawToInt r.refPosition = none) →
        ∃ raw, annotate_genomic_context rows lookup k rfc =
            .error (.malformedPosition raw) ∧ rawToInt raw = none)
    ∧ ((∀ r ∈ rows, (rawToInt r.refPosition).isSome) →
        ∀ raw, annotate_genomic_context rows lookup k rfc ≠ .error (.malformedPosition raw))
    ∧ (∀ n : Int, rawToInt (.intVal n) = some n) := by
  refine ⟨?_, ?_, fun n => rfl⟩
  · rintro ⟨r, hr, hb⟩
    obtain ⟨raw, hraw, hnone⟩ := coercePositions_error_of_bad hr hb
    refine ⟨raw, ?_, hnone⟩
    simp only [annotate_genomic_context]
    rw [hraw]
  · intro hall raw
    obtain ⟨ps, hps⟩ := coercePositions_ok_of_all hall
    simp only [annotate_genomic_context, hps]
    split
    · split <;> simp
    · simp

/-- Witness for C3 (amended): a batch containing a non-numeric position cell
aborts with a malformed-position error. -/
theorem annotate_position_coercion_witness :
    ∃ raw, annotate_genomic_context badBatch fullLookup 1 true =
        .error (.malformedPosition raw) ∧ rawToInt raw = none :=
  (annotate_position_coercion badBatch fullLookup 1 true).1
    ⟨{ mapping := "chr1", refPosition := .strVal "oops", reference := "C", allele := "T" },
      by decide, rfl⟩

/-- C4: with `require_full_context = true` and flank `k`, every row of the
annotator's output has `seq_len = 2 * k + 1`; rows with shorter context are
dropped, never emitted. -/
theorem annotate_full_context_len (rows : List VariantRow)
    (lookup : List (String × Int) → List CtxResult) (k : Nat) (out : List CtxRow)
    (h : annotate_genomic_context rows lookup k true = .ok out) :
    ∀ r ∈ out, r.seq_len = 2 * k + 1 := by
  simp only [annotate_genomic_context] at h
  split at h
  · exact absurd h (by simp)
  · split at h
    · simp only [if_true] at h
      injection h with h
      subst h
      intro r hr
      have h2 := (List.mem_filter.mp hr).2
      have h3 : r.seq_len = k * 2 + 1 := by simpa using h2
      omega
    · exact absurd h (by simp)

/-- Witness for C4 at a concrete one-row batch with flank 1. -/
theorem annotate_full_context_len_witness : ctxRowNeg.seq_len = 2 * 1 + 1 :=
  annotate_full_context_len negativeBatch fullLookup 1 [ctxRowNeg] rfl ctxRowNeg (by decide)

/-- C5: signature classification is case-insensitive — uppercasing the
`reference`, `allele` and `seq` fields beforehand yields the same flag —
and the output row visibly carries the uppercase-normalised fields. -/
theorem a3a_case_insensitive (r : CtxRow) :
    (annotate_a3a_row r).A3A_context =
      (annotate_a3a_row { r with reference := strUpper r.reference,
                                 allele := strUpper r.allele,
                                 seq := strUpper r.seq }).A3A_context
    ∧ (annotate_a3a_row r).reference = strUpper r.reference
    ∧ (annotate_a3a_row r).allele = strUpper r.allele
    ∧ (annotate_a3a_row r).seq = strUpper r.seq := by
  refine ⟨?_, rfl, rfl, rfl⟩
  simp [annotate_a3a_row, strUpper_idem]

/-- C6: deduplication is idempotent — applied to its own kept output it
removes zero rows and flags no duplicates. -/
theorem remove_duplicates_idempotent (df : List MasterRow) :
    remove_duplicate_mutations ((remove_duplicate_mutations df).1) =
      ((remove_duplicate_mutations df).1, ([] : List MasterRow)) := by
  have hp : ((remove_duplicate_mutations df).1).Pairwise (fun a b => dedupKey a ≠ dedupKey b) :=
    dropDupGo_pairwise [] df
  have h1 : drop_duplicates ((remove_duplicate_mutations df).1) =
      (remove_duplicate_mutations df).1 :=
    dropDupGo_of_pairwise hp [] (by simp)
  have h2 : duplicateRows ((remove_duplicate_mutations df).1) = [] :=
    duplicateRows_of_pairwise hp
  simp only [remove_duplicate_mutations] at h1 h2 ⊢
  rw [h1, h2]

/-- C7 counterexample: when fileB.csv's only row duplicates a fileA.csv row,
fileB.csv ends with zero kept rows, and the per-file summary — which
iterates over the origin files of the kept frame only — mentions fileA.csv
alone: the empty file is not reported at all (and no division by zero
occurs), contradicting the claim that it is reported as having no rows. -/
theorem zero_kept_file_not_reported :
    ("fileB.csv" ∈ ([dupRowA, dupRowB].map (fun r => r.origin_file)))
    ∧ (((remove_duplicate_mutations [dupRowA, dupRowB]).1.filter
          (fun r => r.origin_file == "fileB.csv")).length = 0)
    ∧ uniqueOrigins (remove_duplicate_mutations [dupRowA, dupRowB]).1 = ["fileA.csv"]
    ∧ exceptIsOk (fileSummary (remove_duplicate_mutations [dupRowA, dupRowB]).1) = true :=
  ⟨by decide, by decide, by decide, rfl⟩

/-- C7 (amended): the per-file summary never divides by zero, because it
iterates only over origin files present in the kept frame, each of which has
at least one kept row; an origin file with zero kept rows is omitted from
the report entirely rather than reported as having no rows. -/
theorem summary_skips_absorbed_files (df : List MasterRow) :
    (∃ lines, fileSummary (remove_duplicate_mutations df).1 = .ok lines
        ∧ lines.map (fun s => s.origin_file) = uniqueOrigins (remove_duplicate_mutations df).1
        ∧ ∀ s ∈ lines, 1 ≤ s.count)
    ∧ ∀ f : String,
        ((remove_duplicate_mutations df).1.filter (fun r => r.origin_file == f)).length = 0 →
        f ∉ uniqueOrigins (remove_duplicate_mutations df).1 := by
  constructor
  · apply summaryLoop_ok
    intro f hf
    have hmem : f ∈ (remove_duplicate_mutations df).1.map (fun r => r.origin_file) :=
      (mem_uniqueGo.mp hf).1
    obtain ⟨r, hr, ho⟩ := List.mem_map.mp hmem
    have : r ∈ (remove_duplicate_mutations df).1.filter (fun r => r.origin_file == f) :=
      List.mem_filter.mpr ⟨hr, by simp [ho]⟩
    have := List.ne_nil_of_mem this
    have := List.length_pos.mpr this
    omega
  · intro f h0 hcon
    have hmem : f ∈ (remove_duplicate_mutations df).1.map (fun r => r.origin_file) :=
      (mem_uniqueGo.mp hcon).1
    obtain ⟨r, hr, ho⟩ := List.mem_map.mp hmem
    have : r ∈ (remove_duplicate_mutations df).1.filter (fun r => r.origin_file == f) :=
      List.mem_filter.mpr ⟨hr, by simp [ho]⟩
    have := List.ne_nil_of_mem this
    rw [← List.length_pos] at this
    omega

/-- Witness for C7 (amended): fileB.csv, whose only row was absorbed as a
duplicate, does not appear in the summary's iteration list. -/
theorem summary_skips_absorbed_files_witness :
    "fileB.csv" ∉ uniqueOrigins (remove_duplicate_mutations [dupRowA, dupRowB]).1 :=
  (summary_skips_absorbed_files [dupRowA, dupRowB]).2 "fileB.csv" (by decide)

/-- C8: every row produced by the context annotator satisfies
`seq = ctx_L ++ ctx_C ++ ctx_R` and `seq_len = seq.length`. -/
theorem annotate_seq_concat (rows : List VariantRow)
    (lookup : List (String × Int) → List CtxResult) (k : Nat) (rfc : Bool) (out : List CtxRow)
    (h : annotate_genomic_context rows lookup k rfc = .ok out) :
    ∀ r ∈ out, r.seq = r.ctx_L ++ r.ctx_C ++ r.ctx_R ∧ r.seq_len = r.seq.length := by
  have hmk : ∀ (a : VariantRow × Int) (b : CtxResult),
      (mkCtxRow a.1 a.2 b).seq = (mkCtxRow a.1 a.2 b).ctx_L ++ (mkCtxRow a.1 a.2 b).ctx_C ++ (mkCtxRow a.1 a.2 b).ctx_R
      ∧ (mkCtxRow a.1 a.2 b).seq_len = (mkCtxRow a.1 a.2 b).seq.length := by
    intro a b
    exact ⟨rfl, rfl⟩
  simp only [annotate_genomic_context] at h
  split at h
  · exact absurd h (by simp)
  · split at h
    · split at h
      · injection h with h
        subst h
        intro r hr
        obtain ⟨a, b, rfl⟩ := mem_zipWith_exists (List.mem_of_mem_filter hr)
        exact hmk a b
      · injection h with h
        subst h
        intro r hr
        obtain ⟨a, b, rfl⟩ := mem_zipWith_exists hr
        exact hmk a b
    · exact absurd h (by simp)

/-- Witness for C8 at a concrete one-row batch. -/
theorem annotate_seq_concat_witness :
    ctxRowNeg.seq = ctxRowNeg.ctx_L ++ ctxRowNeg.ctx_C ++ ctxRowNeg.ctx_R
    ∧ ctxRowNeg.seq_len = ctxRowNeg.seq.length :=
  annotate_seq_concat negativeBatch fullLookup 1 true [ctxRowNeg] rfl ctxRowNeg (by decide)

/-- C9: once positions are coerced, a lookup result whose length differs
from the row count aborts the batch with a length-mismatch error instead of
producing an output; when the lengths agree the results are zipped back onto
the rows one-to-one in input order. -/
theorem annotate_lookup_contract (rows : List VariantRow)
    (lookup : List (String × Int) → List CtxResult) (k : Nat) (rfc : Bool)
    (ps : List Int) (hc : coercePositions rows = .ok ps) :
    ((lookup (positionPairs rows ps)).length ≠ rows.length →
        annotate_genomic_context rows lookup k rfc =
          .error (.lookupLengthMismatch rows.length (lookup (positionPairs rows ps)).length))
    ∧ ((lookup (positionPairs rows ps)).length = rows.length →
        ∃ out, annotate_genomic_context rows lookup k false = .ok out
          ∧ out.length = rows.length
          ∧ ∀ (i : Nat) (hi : i < rows.length) (hp : i < ps.length)
              (hr : i < (lookup (positionPairs rows ps)).length),
              out[i]? = some (mkCtxRow rows[i] ps[i] ((lookup (positionPairs rows ps))[i]))) := by
  have hps : ps.length = rows.length := coercePositions_length hc
  constructor
  · intro hne
    simp only [annotate_genomic_context]
    rw [hc]
    simp only [if_neg hne]
  · intro heq
    refine ⟨List.zipWith (fun rp c => mkCtxRow rp.1 rp.2 c) (rows.zip ps)
      (lookup (positionPairs rows ps)), ?_, ?_, ?_⟩
    · simp only [annotate_genomic_context]
      rw [hc]
      simp [if_pos heq]
    · simp [List.length_zipWith, List.length_zip, hps, heq]
    · intro i hi hp hr
      have hiz : i < (List.zipWith (fun (rp : VariantRow × Int) c => mkCtxRow rp.1 rp.2 c)
          (rows.zip ps) (lookup (positionPairs rows ps))).length := by
        simp [List.length_zipWith, List.length_zip, hps, heq]
        omega
      rw [List.getElem?_eq_getElem hiz]
      congr 1
      rw [List.getElem_zipWith]
      congr 1 <;> rw [List.getElem_zip]

/-- Witness for C9: an empty lookup result for a one-row batch aborts the
batch with a length-mismatch error. -/
theorem annotate_lookup_contract_witness :
    annotate_genomic_context negativeBatch emptyLookup 1 true =
      .error (.lookupLengthMismatch 1 0) :=
  (annotate_lookup_contract negativeBatch emptyLookup 1 true [-7] rfl).1 (by decide)

/-- C10: the context annotator does not mutate its input — at the heap
level, every object that existed before the call, in particular the
caller's DataFrame, is unchanged after the call, because the body's first
statement copies the frame and all later writes target the copy. -/
theorem annotate_call_preserves_caller (heap : List FrameVal) (a : Nat)
    (lookup : List (String × Int) → List CtxResult) (k : Nat) (rfc : Bool)
    (i : Nat) (hi : i < heap.length) :
    ((annotate_genomic_context_call heap a lookup k rfc).1)[i]? = heap[i]? := by
  unfold annotate_genomic_context_call
  split
  · next rows heq =>
    split
    · next out hout =>
      have hne : heap.length ≠ i := by omega
      rw [List.getElem?_set_ne hne]
      exact List.getElem?_append_left hi
    · next e herr =>
      exact List.getElem?_append_left hi
  · rfl

/-- Witness for C10 at a concrete one-object heap. -/
theorem annotate_call_preserves_caller_witness :
    ((annotate_genomic_context_call [FrameVal.raw negativeBatch] 0 fullLookup 1 true).1)[0]? =
      ([FrameVal.raw negativeBatch] : List FrameVal)[0]? :=
  annotate_call_preserves_caller [FrameVal.raw negativeBatch] 0 fullLookup 1 true 0 (by decide)

end A3ann
